import Mathlib

/-!
Verification of the quote-management core of `dom-manipulation/script.js`
(the "dynamic quote generator").

The JavaScript source is shallowly embedded: every operation of the core
(load, save, add, import, clear, category listing, selected-category
restoration, filter/selection) is translated into an executable Lean
function over explicit state.  DOM rendering, event wiring and the
session-storage "last displayed quote" are presentation-layer side effects
and are not part of the embedded state; the browser prompts
(`confirm(...)`) and the random source (`Math.random()`) are passed in as
explicit arguments, and the outcome of each `alert` path is reported
through a result type.
-/

namespace QuoteGen

/-- JavaScript values, as far as this program inspects them.  `jundefined`
stands for `undefined` (in particular the result of reading an absent
object property).  Numbers are modelled as integers: the program never
looks at a number beyond its truthiness. -/
inductive JVal where
  | jundefined
  | jnull
  | jbool (b : Bool)
  | jnum (n : Int)
  | jstr (s : String)
  | jarr (elems : List JVal)
  | jobj (fields : List (String × JVal))

/-- JavaScript truthiness of a value (`undefined`, `null`, `false`, `0`
and the empty string are falsy; every array and object is truthy). -/
def jsTruthy : JVal → Bool
  | .jundefined => false
  | .jnull => false
  | .jbool b => b
  | .jnum n => n != 0
  | .jstr s => s != ""
  | .jarr _ => true
  | .jobj _ => true

/-- Property access `v[k]`: the first binding of the key in an object,
`undefined` otherwise (also on non-objects). -/
def getField : JVal → String → JVal
  | .jobj fields, k =>
    match fields.find? (fun p => p.1 == k) with
    | some p => p.2
    | none => .jundefined
  | _, _ => .jundefined

/-- JavaScript `String.prototype.trim`: strips leading and trailing
whitespace.  Written over the underlying character list so that it
evaluates inside the kernel. -/
def jsTrim (s : String) : String :=
  ⟨((s.data.dropWhile Char.isWhitespace).reverse.dropWhile Char.isWhitespace).reverse⟩

/-- A quote record as produced by `addQuote` and by the import
normalisation: three string attributes. -/
structure Quote where
  text : String
  author : String
  category : String
deriving DecidableEq, Repr

/-- The three built-in `DEFAULT_QUOTES` used when nothing valid is stored. -/
def DEFAULT_QUOTES : List Quote :=
  [ { text := "The best way to predict the future is to invent it.",
      category := "Inspiration", author := "Alan Kay" },
    { text := "Simplicity is the soul of efficiency.",
      category := "Wisdom", author := "Austin Freeman" },
    { text := "If you want to go fast, go alone. If you want to go far, go together.",
      category := "Teamwork", author := "African Proverb" } ]

/-- The JSON encoding of a quote record (the shape written by
`JSON.stringify` both to `localStorage` and to the export file). -/
def quoteToJVal (q : Quote) : JVal :=
  .jobj [("text", .jstr q.text), ("author", .jstr q.author), ("category", .jstr q.category)]

/-- What `localStorage.getItem(LOCAL_KEY)` followed by `JSON.parse` can
yield: no stored string, a string `JSON.parse` throws on, or a parsed
JSON value. -/
inductive StoredRaw where
  | absent
  | corrupt
  | value (v : JVal)

/-- The element test of `loadQuotes`: `q && typeof q.text === 'string'`. -/
def hasStringText (q : JVal) : Bool :=
  jsTruthy q &&
    match getField q "text" with
    | .jstr _ => true
    | _ => false

/-- Model of `loadQuotes()`: returns the stored array filtered to truthy elements
whose `text` is a string; on absence, parse failure or a non-array root
it falls back to a copy of `DEFAULT_QUOTES`. -/
def loadQuotes : StoredRaw → List JVal
  | .absent => DEFAULT_QUOTES.map quoteToJVal
  | .corrupt => DEFAULT_QUOTES.map quoteToJVal
  | .value v =>
    match v with
    | .jarr parsed => parsed.filter (fun q => hasStringText q)
    | _ => DEFAULT_QUOTES.map quoteToJVal

/-- The argument of `addQuote`: `{ text, author = '', category = '' }`,
where `none` models an absent (`undefined`) property. -/
structure Candidate where
  text : Option String
  author : Option String
  category : Option String

/-- Outcome of `addQuote`: the `alert('Please provide quote text.')` early
return, the declined-duplicate early return, or a successful append. -/
inductive AddResult where
  | validationError
  | cancelled
  | added
deriving DecidableEq, Repr

/-- The expression `x ? x.trim() : ''` applied to a defaulted optional
string field (absent fields default to the empty string). -/
def jsOptTrim : Option String → String
  | none => ""
  | some s => if s = "" then "" else jsTrim s

/-- Model of `addQuote(...)` on the in-memory collection: rejects falsy or
whitespace-only `text`; trims all three fields; on an exact duplicate
text asks for confirmation (`confirmDup`) and is a no-op when declined;
otherwise appends the new quote at the end. -/
def addQuote (c : Candidate) (confirmDup : Bool) (quotes : List Quote) :
    List Quote × AddResult :=
  match c.text with
  | none => (quotes, .validationError)
  | some t =>
    if t = "" || jsTrim t = "" then (quotes, .validationError)
    else
      let newQuote : Quote :=
        { text := jsTrim t, author := jsOptTrim c.author, category := jsOptTrim c.category }
      if quotes.any (fun q => q.text == newQuote.text) && !confirmDup then
        (quotes, .cancelled)
      else
        (quotes ++ [newQuote], .added)

/-- Outcome of the import handler: `JSON.parse` threw, non-array root,
zero well-formed items, declined duplicate append, or an append that
alerts `Imported ${toAdd.length} new quotes.`. -/
inductive ImportResult where
  | parseFailure
  | formatError
  | noValidItems
  | cancelled
  | imported (count : Nat)
deriving DecidableEq, Repr

/-- The well-formedness test of the import filter:
`item && typeof item.text === 'string' && item.text.trim() !== ''`. -/
def itemTextOk (item : JVal) : Bool :=
  jsTruthy item &&
    match getField item "text" with
    | .jstr s => jsTrim s != ""
    | _ => false

/-- The coercion `(f && typeof f === 'string') ? f.trim() : ''` applied to
the `author` and `category` properties of an imported item. -/
def coerceStrField (v : JVal) : String :=
  match v with
  | .jstr s => if s = "" then "" else jsTrim s
  | _ => ""

/-- Normalisation of one well-formed imported item into a quote record. -/
def normalizeItem (item : JVal) : Quote :=
  { text := match getField item "text" with | .jstr s => jsTrim s | _ => "",
    author := coerceStrField (getField item "author"),
    category := coerceStrField (getField item "category") }

/-- The `imported.reduce(...)` pass of the import handler: pushes the
normalisation of each well-formed item, in file order. -/
def computeValid (items : List JVal) : List Quote :=
  items.foldl (fun acc item => if itemTextOk item then acc ++ [normalizeItem item] else acc) []

/-- Model of `importFromJsonFile` after the file has been read, on the in-memory
collection.  `parsed` is the outcome of `JSON.parse` (`none` when it
threw); `confirmAppendDup` is the answer to the append-duplicates
`confirm`.  Mirrors the source: filters to `valid`, partitions against
the set of texts already present, and appends either the new subset or
(on confirmation) the whole of `valid`; the reported count is
`toAdd.length` in both append branches. -/
def importFromJsonFile (parsed : Option JVal) (confirmAppendDup : Bool)
    (quotes : List Quote) : List Quote × ImportResult :=
  match parsed with
  | none => (quotes, .parseFailure)
  | some (.jarr imported) =>
    let valid := computeValid imported
    if valid.length = 0 then (quotes, .noValidItems)
    else
      let existingTexts := quotes.map Quote.text
      let toAdd := valid.filter (fun q => !(existingTexts.contains q.text))
      if toAdd.length = 0 then
        if !confirmAppendDup then (quotes, .cancelled)
        else (quotes ++ valid, .imported toAdd.length)
      else (quotes ++ toAdd, .imported toAdd.length)
  | some _ => (quotes, .formatError)

/-- Model of `clearAllQuotes()` on the in-memory collection: empties it when the
destructive-action `confirm` is accepted, otherwise a no-op. -/
def clearAllQuotes (confirmClear : Bool) (quotes : List Quote) : List Quote :=
  if confirmClear then [] else quotes

/-- Model of `exportToJson()`: the JSON value serialised into the `quotes.json`
download (serialisation and re-parsing of a JSON value round-trip to the
same value, so the export is modelled at the value level). -/
def exportToJson (quotes : List Quote) : JVal :=
  .jarr (quotes.map quoteToJVal)

/-- The category list of `populateCategories`:
`[...new Set(quotes.map(q => q.category).filter(c => c))]` — distinct
truthy categories, in first-insertion order of the `Set`. -/
def listCategories (quotes : List Quote) : List String :=
  ((quotes.map Quote.category).filter (fun c => c != "")).foldl
    (fun acc c => if acc.contains c then acc else acc ++ [c]) []

/-- The restoration step of `populateCategories`: the dropdown keeps the
saved category only when `savedCategory && categories.includes(savedCategory)`,
and otherwise stays on the freshly rendered `"all"` option.
`savedCategory` is `localStorage.getItem('dq_selectedCategory')`
(`none` = key absent). -/
def restoreSelectedCategory (savedCategory : Option String) (quotes : List Quote) : String :=
  let categories := listCategories quotes
  match savedCategory with
  | none => "all"
  | some s => if s != "" && categories.contains s then s else "all"

/-- The candidate pool of `filterQuotes`: the whole collection for
`"all"`, otherwise the quotes whose category equals the selection
exactly. -/
def selectPool (quotes : List Quote) (selectedCategory : String) : List Quote :=
  if selectedCategory = "all" then quotes
  else quotes.filter (fun q => q.category == selectedCategory)

/-- Model of `filterQuotes()` as a selection function: `none` models the
`No quotes found for "..."` message on an empty pool; otherwise the
element at `Math.floor(Math.random() * filtered.length)`, with the
random draw passed in as `randIdx` (reduced mod the pool length, the
range `Math.floor` guarantees). -/
def filterQuotes (quotes : List Quote) (selectedCategory : String) (randIdx : Nat) :
    Option Quote :=
  let filtered := selectPool quotes selectedCategory
  if h : filtered.length = 0 then none
  else some (filtered.get ⟨randIdx % filtered.length, Nat.mod_lt _ (Nat.pos_of_ne_zero h)⟩)

/-- The persistent state the mutations touch: the in-memory collection
and the decoded content of the `dq_quotes_v1` key (`none` = never
written). -/
structure App where
  quotes : List Quote
  durable : Option (List Quote)
deriving DecidableEq, Repr

/-- Model of `saveQuotes(quotes)`: `localStorage.setItem` wrapped in `try/catch` —
a throwing write (`writeFails = true`) is swallowed and leaves the stored
value as it was. -/
def saveQuotes (writeFails : Bool) (durable : Option (List Quote)) (quotes : List Quote) :
    Option (List Quote) :=
  if writeFails then durable else some quotes

/-- Model of `addQuote` together with its `saveQuotes` call: the collection is
pushed to first, and the store is written only on the successful path. -/
def addQuoteApp (writeFails : Bool) (c : Candidate) (confirmDup : Bool) (app : App) :
    App × AddResult :=
  let r := addQuote c confirmDup app.quotes
  match r.2 with
  | .added => ({ quotes := r.1, durable := saveQuotes writeFails app.durable r.1 }, r.2)
  | _ => ({ app with quotes := r.1 }, r.2)

/-- The import handler together with its `saveQuotes` call: the store is
written exactly on the two append branches. -/
def importFromJsonFileApp (writeFails : Bool) (parsed : Option JVal)
    (confirmAppendDup : Bool) (app : App) : App × ImportResult :=
  let r := importFromJsonFile parsed confirmAppendDup app.quotes
  match r.2 with
  | .imported _ => ({ quotes := r.1, durable := saveQuotes writeFails app.durable r.1 }, r.2)
  | _ => ({ app with quotes := r.1 }, r.2)

/-- Model of `clearAllQuotes` together with its `saveQuotes` call. -/
def clearAllQuotesApp (writeFails : Bool) (confirmClear : Bool) (app : App) : App :=
  if confirmClear then
    { quotes := [], durable := saveQuotes writeFails app.durable [] }
  else app

/-- A text attribute that is already trimmed and non-empty. -/
def TrimmedNonEmpty (t : String) : Prop := jsTrim t = t ∧ t ≠ ""

/-- The invariant of claim C1 over a collection. -/
def TextInvariant (quotes : List Quote) : Prop := ∀ q ∈ quotes, TrimmedNonEmpty q.text

/-- Collections reachable from `init` through the three mutations. -/
inductive Reachable (init : List Quote) : List Quote → Prop where
  | base : Reachable init init
  | addStep (c : Candidate) (conf : Bool) (qs : List Quote) :
      Reachable init qs → Reachable init (addQuote c conf qs).1
  | importStep (parsed : Option JVal) (conf : Bool) (qs : List Quote) :
      Reachable init qs → Reachable init (importFromJsonFile parsed conf qs).1
  | clearStep (conf : Bool) (qs : List Quote) :
      Reachable init qs → Reachable init (clearAllQuotes conf qs)

/-- Spec-side definition for the refinement claim about category listing:
each distinct value of the input, in order of its first occurrence. -/
def specDistinctFirstOcc : List String → List String
  | [] => []
  | c :: cs => c :: (specDistinctFirstOcc cs).filter (fun d => d != c)

/-- The `toAdd` subset of the import merge: the well-formed items whose
trimmed text is not already present in the collection. -/
def importToAdd (items : List JVal) (quotes : List Quote) : List Quote :=
  (computeValid items).filter (fun q => !((quotes.map Quote.text).contains q.text))

/-- A collection all of whose records carry the trimmed, non-empty `text`
and trimmed `author`/`category` that insertion through `addQuote` or
the import normalisation produces (the data-model shape of the spec). -/
def WellFormedCollection (quotes : List Quote) : Prop :=
  ∀ q ∈ quotes, jsTrim q.text = q.text ∧ q.text ≠ "" ∧
    jsTrim q.author = q.author ∧ jsTrim q.category = q.category

end QuoteGen

namespace QuoteGen

/-! Auxiliary list lemmas, leading to idempotence of `jsTrim`. -/

theorem dropWhile_dropWhile {α : Type} (p : α → Bool) (l : List α) :
    (l.dropWhile p).dropWhile p = l.dropWhile p := by
  induction l with
  | nil => rfl
  | cons a l ih =>
    by_cases h : p a
    · rw [List.dropWhile_cons_of_pos h]; exact ih
    · rw [List.dropWhile_cons_of_neg h, List.dropWhile_cons_of_neg h]

theorem dropWhile_eq_self_of_head {α : Type} (p : α → Bool) (l : List α)
    (h : ∀ c, l.head? = some c → p c = false) : l.dropWhile p = l := by
  cases l with
  | nil => rfl
  | cons a l =>
    have := h a rfl
    exact List.dropWhile_cons_of_neg (by simp [this])

theorem getLast?_dropWhile_of_ne_nil {α : Type} (p : α → Bool) (l : List α)
    (h : l.dropWhile p ≠ []) : (l.dropWhile p).getLast? = l.getLast? := by
  induction l with
  | nil => simp at h
  | cons a l ih =>
    by_cases hp : p a
    · rw [List.dropWhile_cons_of_pos hp] at h ⊢
      have hl : l ≠ [] := by
        intro e; subst e; simp at h
      rw [ih h, List.getLast?_cons]
      cases hgl : l.getLast? with
      | none => exact absurd (List.getLast?_eq_none_iff.mp hgl) hl
      | some x => rfl
    · rw [List.dropWhile_cons_of_neg hp]

theorem head?_of_dropWhile_eq {α : Type} (p : α → Bool) (l m : List α)
    (hm : m = l.dropWhile p) (c : α) (hc : m.head? = some c) : p c = false := by
  have := List.head?_dropWhile_not p l
  rw [← hm] at this
  rw [hc] at this
  exact this

theorem trimChars_idem (l : List Char) :
    (((((l.dropWhile Char.isWhitespace).reverse.dropWhile
        Char.isWhitespace).reverse.dropWhile Char.isWhitespace).reverse.dropWhile
        Char.isWhitespace).reverse)
    = ((l.dropWhile Char.isWhitespace).reverse.dropWhile Char.isWhitespace).reverse := by
  set ws := Char.isWhitespace with hws
  set A := l.dropWhile ws with hA
  set X := A.reverse.dropWhile ws with hX
  have step1 : X.reverse.dropWhile ws = X.reverse := by
    apply dropWhile_eq_self_of_head
    intro c hc
    rw [List.head?_reverse] at hc
    have hXne : X ≠ [] := by
      intro e; rw [e] at hc; simp at hc
    rw [hX, getLast?_dropWhile_of_ne_nil ws A.reverse (by rw [← hX]; exact hXne),
      List.getLast?_reverse] at hc
    exact head?_of_dropWhile_eq ws l A hA c hc
  rw [step1, List.reverse_reverse]
  rw [hX, dropWhile_dropWhile]

theorem jsTrim_idem (s : String) : jsTrim (jsTrim s) = jsTrim s := by
  unfold jsTrim
  exact congrArg String.mk (trimChars_idem s.data)

theorem jsTrim_trimmedNonEmpty {t : String} (h : jsTrim t ≠ "") :
    TrimmedNonEmpty (jsTrim t) :=
  ⟨jsTrim_idem t, h⟩

end QuoteGen

namespace QuoteGen

/-! Lemmas on the first-occurrence deduplication performed by the
JavaScript `Set` spread in `populateCategories`. -/

theorem mem_specDistinctFirstOcc {a : String} {l : List String} :
    a ∈ specDistinctFirstOcc l ↔ a ∈ l := by
  induction l with
  | nil => simp [specDistinctFirstOcc]
  | cons c cs ih =>
    simp only [specDistinctFirstOcc, List.mem_cons, List.mem_filter, ih]
    constructor
    · rintro (rfl | ⟨h, _⟩)
      · exact Or.inl rfl
      · exact Or.inr h
    · rintro (rfl | h)
      · exact Or.inl rfl
      · by_cases hac : a = c
        · exact Or.inl hac
        · exact Or.inr ⟨h, by simp [hac]⟩

theorem specDistinctFirstOcc_filter (p : String → Bool) (l : List String) :
    specDistinctFirstOcc (l.filter p) = (specDistinctFirstOcc l).filter p := by
  induction l with
  | nil => rfl
  | cons a l ih =>
    by_cases hp : p a
    · rw [List.filter_cons_of_pos hp]
      simp only [specDistinctFirstOcc, ih, List.filter_cons_of_pos hp, List.filter_filter]
      congr 1
      apply List.filter_congr
      intro d _
      rw [Bool.and_comm]
    · rw [List.filter_cons_of_neg hp]
      simp only [specDistinctFirstOcc, ih, List.filter_cons_of_neg hp, List.filter_filter]
      apply List.filter_congr
      intro d hd
      by_cases hpd : p d
      · have hda : d ≠ a := by rintro rfl; exact hp hpd
        simp [hpd, hda]
      · simp [hpd]

theorem foldl_setInsert_eq (l : List String) :
    ∀ acc : List String,
      l.foldl (fun acc c => if acc.contains c then acc else acc ++ [c]) acc
        = acc ++ specDistinctFirstOcc (l.filter (fun c => !(acc.contains c))) := by
  induction l with
  | nil => intro acc; simp [specDistinctFirstOcc]
  | cons c l ih =>
    intro acc
    by_cases hc : acc.contains c
    · rw [List.foldl_cons, if_pos hc]
      rw [ih acc, List.filter_cons_of_neg (by simp; exact List.mem_of_elem_eq_true hc)]
    · rw [List.foldl_cons, if_neg hc]
      rw [ih (acc ++ [c]),
        List.filter_cons_of_pos (by simp; exact fun h => hc (List.elem_iff.mpr h))]
      simp only [specDistinctFirstOcc]
      have hfilters : l.filter (fun d => !((acc ++ [c]).contains d))
          = (l.filter (fun d => !(acc.contains d))).filter (fun d => d != c) := by
        rw [List.filter_filter]
        apply List.filter_congr
        intro d _
        by_cases hd1 : d ∈ acc
        · simp [hd1]
        · by_cases hd2 : d = c
          · subst hd2
            simp [hd1]
          · simp [hd1, hd2]
      rw [hfilters, specDistinctFirstOcc_filter]
      simp

theorem listCategories_eq_spec (quotes : List Quote) :
    listCategories quotes
      = specDistinctFirstOcc ((quotes.map Quote.category).filter (fun c => c != "")) := by
  unfold listCategories
  rw [foldl_setInsert_eq]
  simp

theorem empty_not_mem_listCategories (quotes : List Quote) :
    "" ∉ listCategories quotes := by
  rw [listCategories_eq_spec]
  intro h
  rw [mem_specDistinctFirstOcc] at h
  have := (List.mem_filter.mp h).2
  simp at this

end QuoteGen

namespace QuoteGen

/-! The import pipeline: characterisation of the `reduce` filter and of
the merge step. -/

theorem computeValid_eq (items : List JVal) :
    computeValid items = (items.filter itemTextOk).map normalizeItem := by
  have aux : ∀ (its : List JVal) (acc : List Quote),
      its.foldl (fun acc item => if itemTextOk item then acc ++ [normalizeItem item] else acc) acc
        = acc ++ (its.filter itemTextOk).map normalizeItem := by
    intro its
    induction its with
    | nil => intro acc; simp
    | cons i its ih =>
      intro acc
      by_cases h : itemTextOk i
      · rw [List.foldl_cons, if_pos h, ih, List.filter_cons_of_pos h]
        simp
      · rw [List.foldl_cons, if_neg h, ih, List.filter_cons_of_neg h]
  unfold computeValid
  rw [aux]
  simp

theorem importFromJsonFile_jarr (items : List JVal) (conf : Bool) (qs : List Quote) :
    importFromJsonFile (some (.jarr items)) conf qs
      = if (computeValid items).length = 0 then ((qs, .noValidItems) : List Quote × ImportResult)
        else if (importToAdd items qs).length = 0 then
          (if !conf then (qs, .cancelled)
           else (qs ++ computeValid items, .imported (importToAdd items qs).length))
        else (qs ++ importToAdd items qs, .imported (importToAdd items qs).length) := rfl

theorem contains_text_append_toAdd (valid qs : List Quote) (q : Quote) (hq : q ∈ valid) :
    (((qs ++ valid.filter (fun r => !((qs.map Quote.text).contains r.text))).map
        Quote.text).contains q.text) = true := by
  apply List.elem_iff.mpr
  rw [List.map_append, List.mem_append]
  by_cases h : (qs.map Quote.text).contains q.text
  · exact Or.inl (List.elem_iff.mp h)
  · right
    apply List.mem_map.mpr
    refine ⟨q, List.mem_filter.mpr ⟨hq, ?_⟩, rfl⟩
    simp only [Bool.not_eq_true] at h
    rw [h]
    rfl

theorem contains_text_append_valid (valid qs : List Quote) (q : Quote) (hq : q ∈ valid) :
    (((qs ++ valid).map Quote.text).contains q.text) = true := by
  apply List.elem_iff.mpr
  rw [List.map_append, List.mem_append]
  exact Or.inr (List.mem_map.mpr ⟨q, hq, rfl⟩)

end QuoteGen

namespace QuoteGen

theorem importToAdd_append_valid_nil (items : List JVal) (qs : List Quote) :
    importToAdd items (qs ++ computeValid items) = [] := by
  unfold importToAdd
  rw [List.filter_eq_nil_iff]
  intro q hq
  have h := contains_text_append_valid (computeValid items) qs q hq
  rw [h]
  simp

theorem importToAdd_append_toAdd_nil (items : List JVal) (qs : List Quote) :
    importToAdd items (qs ++ importToAdd items qs) = [] := by
  unfold importToAdd
  rw [List.filter_eq_nil_iff]
  intro q hq
  have h := contains_text_append_toAdd (computeValid items) qs q hq
  rw [h]
  simp

/-! Preservation of the non-empty-trimmed-text shape by the mutations. -/

theorem trimmedNonEmpty_mem_computeValid (items : List JVal) (q : Quote)
    (hq : q ∈ computeValid items) : TrimmedNonEmpty q.text := by
  rw [computeValid_eq] at hq
  obtain ⟨item, hitem, rfl⟩ := List.mem_map.mp hq
  have hok := (List.mem_filter.mp hitem).2
  unfold itemTextOk at hok
  split at hok
  case h_1 s heq =>
    have hs : jsTrim s ≠ "" := by
      simp at hok
      exact hok.2
    have htext : (normalizeItem item).text = jsTrim s := by
      simp [normalizeItem, heq]
    rw [htext]
    exact jsTrim_trimmedNonEmpty hs
  case h_2 => simp at hok

theorem textInvariant_addQuote (c : Candidate) (conf : Bool) (qs : List Quote)
    (h : TextInvariant qs) : TextInvariant (addQuote c conf qs).1 := by
  unfold addQuote
  cases hct : c.text with
  | none => exact h
  | some t =>
    dsimp only
    split
    · exact h
    · rename_i hguard
      split
      · exact h
      · intro q hq
        rcases List.mem_append.mp hq with hmem | hmem
        · exact h q hmem
        · have hq' : q = ⟨jsTrim t, jsOptTrim c.author, jsOptTrim c.category⟩ := by
            simpa using hmem
          subst hq'
          refine jsTrim_trimmedNonEmpty ?_
          intro he
          exact hguard (by simp [he])

theorem textInvariant_import (parsed : Option JVal) (conf : Bool) (qs : List Quote)
    (h : TextInvariant qs) : TextInvariant (importFromJsonFile parsed conf qs).1 := by
  match parsed with
  | none => exact h
  | some .jundefined => exact h
  | some .jnull => exact h
  | some (.jbool _) => exact h
  | some (.jnum _) => exact h
  | some (.jstr _) => exact h
  | some (.jobj _) => exact h
  | some (.jarr items) =>
    rw [importFromJsonFile_jarr]
    split
    · exact h
    · split
      · split
        · exact h
        · intro q hq
          rcases List.mem_append.mp hq with hmem | hmem
          · exact h q hmem
          · exact trimmedNonEmpty_mem_computeValid items q hmem
      · intro q hq
        rcases List.mem_append.mp hq with hmem | hmem
        · exact h q hmem
        · have : q ∈ computeValid items := by
            unfold importToAdd at hmem
            exact (List.mem_filter.mp hmem).1
          exact trimmedNonEmpty_mem_computeValid items q this

theorem textInvariant_clear (conf : Bool) (qs : List Quote)
    (h : TextInvariant qs) : TextInvariant (clearAllQuotes conf qs) := by
  unfold clearAllQuotes
  split
  · intro q hq
    simp at hq
  · exact h

theorem reachable_textInvariant (init qs : List Quote)
    (hr : Reachable init qs) (h : TextInvariant init) : TextInvariant qs := by
  induction hr with
  | base => exact h
  | addStep c conf qs' _ ih => exact textInvariant_addQuote c conf qs' ih
  | importStep parsed conf qs' _ ih => exact textInvariant_import parsed conf qs' ih
  | clearStep conf qs' _ ih => exact textInvariant_clear conf qs' ih

end QuoteGen

namespace QuoteGen

/-! The claims. -/

/-- C5: for every import file (any parse outcome), performing the
same import twice in a row, with the duplicate-append confirmation
declined on the second run, leaves the Quote Collection after the
second import identical to the collection after the first import. -/
theorem import_twice_second_noop (parsed : Option JVal) (conf : Bool) (qs : List Quote) :
    (importFromJsonFile parsed false (importFromJsonFile parsed conf qs).1).1
      = (importFromJsonFile parsed conf qs).1 := by
  match parsed with
  | none => rfl
  | some .jundefined => rfl
  | some .jnull => rfl
  | some (.jbool _) => rfl
  | some (.jnum _) => rfl
  | some (.jstr _) => rfl
  | some (.jobj _) => rfl
  | some (.jarr items) =>
    by_cases h0 : (computeValid items).length = 0
    · rw [importFromJsonFile_jarr items conf qs, if_pos h0,
        importFromJsonFile_jarr items false qs, if_pos h0]
    · rw [importFromJsonFile_jarr items conf qs, if_neg h0]
      by_cases h1 : (importToAdd items qs).length = 0
      · rw [if_pos h1]
        cases conf with
        | false =>
          show (importFromJsonFile (some (.jarr items)) false qs).1 = qs
          rw [importFromJsonFile_jarr items false qs, if_neg h0, if_pos h1]
          rfl
        | true =>
          show (importFromJsonFile (some (.jarr items)) false
              (qs ++ computeValid items)).1 = qs ++ computeValid items
          rw [importFromJsonFile_jarr items false (qs ++ computeValid items), if_neg h0,
            if_pos (by rw [importToAdd_append_valid_nil]; rfl)]
          rfl
      · rw [if_neg h1]
        show (importFromJsonFile (some (.jarr items)) false
            (qs ++ importToAdd items qs)).1 = qs ++ importToAdd items qs
        rw [importFromJsonFile_jarr items false (qs ++ importToAdd items qs), if_neg h0,
          if_pos (by rw [importToAdd_append_toAdd_nil]; rfl)]
        rfl

/-- C1 counterexample: `loadQuotes` keeps a stored element whose `text`
is a string consisting only of whitespace, so initialize does not filter
out elements with an empty trimmed text (it only filters out elements
whose `text` is not a string). -/
theorem loadQuotes_keeps_whitespace_text :
    loadQuotes (.value (.jarr [.jobj [("text", .jstr "   ")]]))
        = [.jobj [("text", .jstr "   ")]]
      ∧ itemTextOk (.jobj [("text", .jstr "   ")]) = false
      ∧ jsTrim "   " = "" :=
  ⟨rfl, by decide, by decide⟩

/-- C1 (amended): `add` and `importBatch` only ever insert trimmed
non-empty texts and `clearAll` trivially preserves the invariant, so
every collection reachable through the three mutations from an initial
collection satisfying the invariant (the built-in defaults do) satisfies
it; `initialize`, however, only guarantees that `text` is a string, so
the invariant holds after startup only if the stored data already
satisfied it. -/
theorem reachable_collections_nonEmpty_trimmed_text :
    (∀ init qs, Reachable init qs → TextInvariant init → TextInvariant qs)
      ∧ TextInvariant DEFAULT_QUOTES := by
  constructor
  · exact reachable_textInvariant
  · intro q hq
    fin_cases hq <;> exact ⟨by decide, by decide⟩

/-- Witness for C1 (amended): one concrete `add` step from the defaults. -/
theorem reachable_collections_nonEmpty_trimmed_text_witness :
    TextInvariant (addQuote ⟨some "  Hello  ", some " X ", some " Y "⟩ false DEFAULT_QUOTES).1 :=
  reachable_collections_nonEmpty_trimmed_text.1 DEFAULT_QUOTES _
    (Reachable.addStep _ _ _ Reachable.base)
    reachable_collections_nonEmpty_trimmed_text.2

/-- C3: a candidate whose `text` is absent, or whose trimmed text is
empty (in particular the empty and the whitespace-only string), makes
`addQuote` report the validation failure and leave both the in-memory
collection and the durable store untouched. -/
theorem addQuote_validation_no_mutation (writeFails confirmDup : Bool) (app : App)
    (c : Candidate)
    (h : c.text = none ∨ ∃ s, c.text = some s ∧ jsTrim s = "") :
    addQuoteApp writeFails c confirmDup app = (app, .validationError) := by
  have hpure : addQuote c confirmDup app.quotes = (app.quotes, .validationError) := by
    rcases h with h | ⟨s, hs, htrim⟩
    · unfold addQuote
      rw [h]
    · unfold addQuote
      rw [hs]
      dsimp only
      rw [if_pos (by simp [htrim])]
  unfold addQuoteApp
  rw [hpure]

/-- Witness for C3 at the whitespace-only candidate of property P3. -/
theorem addQuote_validation_no_mutation_witness :
    addQuoteApp false ⟨some "   ", some "A", some "B"⟩ true ⟨DEFAULT_QUOTES, none⟩
      = (⟨DEFAULT_QUOTES, none⟩, .validationError) :=
  addQuote_validation_no_mutation false true ⟨DEFAULT_QUOTES, none⟩ _
    (Or.inr ⟨"   ", rfl, by decide⟩)

end QuoteGen

namespace QuoteGen

/-- C2 counterexample: importing a file whose only (well-formed) item
duplicates an existing text with the append-duplicates confirmation
accepted appends one item to the collection, yet the operation reports
`Imported 0 new quotes.` — not the count of items actually added. -/
theorem import_reported_count_counterexample :
    importFromJsonFile (some (.jarr [.jobj [("text", .jstr "a")]])) true [⟨"a", "", ""⟩]
        = ([⟨"a", "", ""⟩, ⟨"a", "", ""⟩], .imported 0)
      ∧ ([⟨"a", "", ""⟩, ⟨"a", "", ""⟩] : List Quote).length
        = ([⟨"a", "", ""⟩] : List Quote).length + 1 := by
  constructor
  · decide
  · decide

/-- C2 (amended): when some filtered items are new, exactly those are
appended and their count is reported; when all filtered items duplicate
existing texts, confirmation appends the entire filtered set but the
reported count is the new-item count `toAdd.length`, which is `0` there
(so the report matches the number of items actually added only outside
the confirmed-duplicates branch); declining leaves the collection
unchanged. -/
theorem import_append_and_reported_count (items : List JVal) (conf : Bool) (qs : List Quote)
    (hvalid : computeValid items ≠ []) :
    (importToAdd items qs ≠ [] →
        importFromJsonFile (some (.jarr items)) conf qs
          = (qs ++ importToAdd items qs, .imported (importToAdd items qs).length))
      ∧ (importToAdd items qs = [] → conf = true →
        importFromJsonFile (some (.jarr items)) conf qs
          = (qs ++ computeValid items, .imported 0))
      ∧ (importToAdd items qs = [] → conf = false →
        importFromJsonFile (some (.jarr items)) conf qs = (qs, .cancelled)) := by
  have h0 : ¬((computeValid items).length = 0) := by
    simpa [List.length_eq_zero] using hvalid
  refine ⟨?_, ?_, ?_⟩
  · intro h1
    rw [importFromJsonFile_jarr, if_neg h0,
      if_neg (by simpa [List.length_eq_zero] using h1)]
  · intro h1 hconf
    subst hconf
    rw [importFromJsonFile_jarr, if_neg h0, if_pos (by simp [h1])]
    simp [h1]
  · intro h1 hconf
    subst hconf
    rw [importFromJsonFile_jarr, if_neg h0, if_pos (by simp [h1])]
    rfl

/-- Witness for C2 (amended): a one-item file of a fresh text into an
empty collection is appended and reported as one new quote. -/
theorem import_append_and_reported_count_witness :
    importFromJsonFile (some (.jarr [.jobj [("text", .jstr "b")]])) true []
      = ([⟨"b", "", ""⟩], .imported 1) := by
  have h :=
    (import_append_and_reported_count [.jobj [("text", .jstr "b")]] true [] (by decide)).1
      (by decide)
  rw [h]
  decide

end QuoteGen

namespace QuoteGen

theorem getField_quoteToJVal_text (q : Quote) :
    getField (quoteToJVal q) "text" = .jstr q.text := rfl

theorem getField_quoteToJVal_author (q : Quote) :
    getField (quoteToJVal q) "author" = .jstr q.author := rfl

theorem getField_quoteToJVal_category (q : Quote) :
    getField (quoteToJVal q) "category" = .jstr q.category := rfl

theorem coerceStrField_trimmed {s : String} (h : jsTrim s = s) :
    coerceStrField (.jstr s) = s := by
  unfold coerceStrField
  dsimp only
  by_cases hs : s = ""
  · rw [if_pos hs, hs]
  · rw [if_neg hs, h]

theorem itemTextOk_quoteToJVal (q : Quote) (ht : jsTrim q.text = q.text)
    (hne : q.text ≠ "") : itemTextOk (quoteToJVal q) = true := by
  unfold itemTextOk
  rw [getField_quoteToJVal_text]
  simp [quoteToJVal, jsTruthy, ht, hne]

theorem normalizeItem_quoteToJVal (q : Quote) (ht : jsTrim q.text = q.text)
    (ha : jsTrim q.author = q.author) (hc : jsTrim q.category = q.category) :
    normalizeItem (quoteToJVal q) = q := by
  unfold normalizeItem
  rw [getField_quoteToJVal_text, getField_quoteToJVal_author, getField_quoteToJVal_category]
  dsimp only
  rw [ht, coerceStrField_trimmed ha, coerceStrField_trimmed hc]

theorem computeValid_export (qs : List Quote) (h : WellFormedCollection qs) :
    computeValid (qs.map quoteToJVal) = qs := by
  rw [computeValid_eq]
  have hfilter : (qs.map quoteToJVal).filter itemTextOk = qs.map quoteToJVal := by
    rw [List.filter_eq_self]
    intro v hv
    obtain ⟨q, hq, rfl⟩ := List.mem_map.mp hv
    obtain ⟨ht, hne, _, _⟩ := h q hq
    exact itemTextOk_quoteToJVal q ht hne
  rw [hfilter, List.map_map]
  have : ∀ q ∈ qs, (normalizeItem ∘ quoteToJVal) q = id q := by
    intro q hq
    obtain ⟨ht, _, ha, hc⟩ := h q hq
    exact normalizeItem_quoteToJVal q ht ha hc
  rw [List.map_congr_left this, List.map_id]

/-- C4: exporting a well-formed Quote Collection and re-importing the
exported value into an empty store yields back exactly the original
collection (the same records in the same order, duplicate texts intact,
because the empty store has no existing texts to filter against). -/
theorem export_import_roundtrip (qs : List Quote) (conf : Bool)
    (h : WellFormedCollection qs) :
    (importFromJsonFile (some (exportToJson qs)) conf []).1 = qs := by
  unfold exportToJson
  have hvalid := computeValid_export qs h
  by_cases hqs : qs = []
  · subst hqs
    rfl
  · rw [importFromJsonFile_jarr]
    have h0 : ¬((computeValid (qs.map quoteToJVal)).length = 0) := by
      rw [hvalid]
      simpa [List.length_eq_zero] using hqs
    rw [if_neg h0]
    have htoAdd : importToAdd (qs.map quoteToJVal) [] = qs := by
      unfold importToAdd
      rw [hvalid]
      have hfilter2 :
          qs.filter (fun q => !((List.map Quote.text ([] : List Quote)).contains q.text)) = qs :=
        List.filter_eq_self.mpr (by intro q hq; rfl)
      rw [hfilter2]
    rw [htoAdd]
    rw [if_neg (by simpa [List.length_eq_zero] using hqs)]
    rfl

/-- Witness for C4: the round-trip on a collection holding the same
record twice, exercising the duplicates-intact part. -/
theorem export_import_roundtrip_witness :
    (importFromJsonFile
        (some (exportToJson [⟨"d", "x", "C"⟩, ⟨"d", "x", "C"⟩])) false []).1
      = [⟨"d", "x", "C"⟩, ⟨"d", "x", "C"⟩] :=
  export_import_roundtrip [⟨"d", "x", "C"⟩, ⟨"d", "x", "C"⟩] false
    (by
      intro q hq
      fin_cases hq <;> exact ⟨by decide, by decide, by decide, by decide⟩)

end QuoteGen

namespace QuoteGen

/-- C6: the candidate pool of the selection is the whole collection for
`"all"` and exactly the quotes whose category equals the argument
(case-sensitive string equality) otherwise; an empty pool yields the
no-quote outcome and a returned quote always comes from the pool. -/
theorem filterQuotes_pool_spec (qs : List Quote) (cat : String) (idx : Nat) :
    selectPool qs "all" = qs
      ∧ (∀ q ∈ selectPool qs cat, cat ≠ "all" → q.category = cat)
      ∧ (selectPool qs cat = [] ↔ filterQuotes qs cat idx = none)
      ∧ (∀ q, filterQuotes qs cat idx = some q → q ∈ selectPool qs cat) := by
  refine ⟨?_, ?_, ?_, ?_⟩
  · unfold selectPool
    rw [if_pos rfl]
  · intro q hq hcat
    unfold selectPool at hq
    rw [if_neg hcat] at hq
    have := (List.mem_filter.mp hq).2
    simpa using this
  · unfold filterQuotes
    constructor
    · intro h
      rw [dif_pos (by rw [h]; rfl)]
    · intro h
      by_cases hl : (selectPool qs cat).length = 0
      · exact List.length_eq_zero.mp hl
      · rw [dif_neg hl] at h
        exact absurd h (by simp)
  · intro q hq
    unfold filterQuotes at hq
    by_cases hl : (selectPool qs cat).length = 0
    · rw [dif_pos hl] at hq
      exact absurd hq (by simp)
    · rw [dif_neg hl] at hq
      have := Option.some.inj hq
      rw [← this]
      exact List.get_mem _ _ _

/-- Witness for C6: on a two-category collection, selecting an absent
category returns the no-quote outcome. -/
theorem filterQuotes_pool_spec_witness :
    filterQuotes [⟨"a", "", "A"⟩, ⟨"b", "", "B"⟩] "Z" 0 = none :=
  (filterQuotes_pool_spec [⟨"a", "", "A"⟩, ⟨"b", "", "B"⟩] "Z" 0).2.2.1.mp (by decide)

/-- C7: the category list is the distinct non-empty category values of
the collection in first-occurrence order (together with the concrete
instance of property P4). -/
theorem listCategories_spec (qs : List Quote) :
    listCategories qs
        = specDistinctFirstOcc ((qs.map Quote.category).filter (fun c => c != ""))
      ∧ listCategories [⟨"q1", "", "A"⟩, ⟨"q2", "", "B"⟩, ⟨"q3", "", "A"⟩, ⟨"q4", "", ""⟩]
        = ["A", "B"] :=
  ⟨listCategories_eq_spec qs, by decide⟩

/-- C8: the stored selected category is restored exactly when it is
still among the collection's current categories; an absent key or a
stale category yields the sentinel `"all"`. -/
theorem restoreSelectedCategory_spec (savedCategory : Option String) (qs : List Quote) :
    restoreSelectedCategory none qs = "all"
      ∧ (∀ s, savedCategory = some s → s ∈ listCategories qs →
          restoreSelectedCategory savedCategory qs = s)
      ∧ (∀ s, savedCategory = some s → s ∉ listCategories qs →
          restoreSelectedCategory savedCategory qs = "all") := by
  refine ⟨rfl, ?_, ?_⟩
  · intro s hs hmem
    subst hs
    unfold restoreSelectedCategory
    dsimp only
    have h1 : s ≠ "" := by
      rintro rfl
      exact empty_not_mem_listCategories qs hmem
    have hb : (s != "") = true := by simpa using h1
    have hc : (listCategories qs).contains s = true := List.elem_iff.mpr hmem
    rw [if_pos (by rw [hb, hc]; rfl)]
  · intro s hs hmem
    subst hs
    unfold restoreSelectedCategory
    dsimp only
    rw [if_neg ?hcond]
    case hcond =>
      intro hcond
      simp at hcond
      exact hmem hcond.2

/-- Witness for C8: a present category is restored, a stale one and the
absent key fall back to `"all"`. -/
theorem restoreSelectedCategory_spec_witness :
    restoreSelectedCategory (some "A") [⟨"a", "", "A"⟩] = "A" :=
  (restoreSelectedCategory_spec (some "A") [⟨"a", "", "A"⟩]).2.1 "A" rfl (by decide)

end QuoteGen

namespace QuoteGen

/-- C9: every mutation is a total function whose in-memory result is the
collection the pure mutation produces, independently of whether the
durable write throws; a failing write leaves the stored value untouched
and changes neither the result code nor the in-memory collection. -/
theorem mutations_tolerate_write_failure (c : Candidate) (confirmDup : Bool)
    (parsed : Option JVal) (confirmAppendDup confirmClear : Bool) (app : App) :
    ((addQuoteApp true c confirmDup app).1.quotes = (addQuote c confirmDup app.quotes).1
      ∧ (addQuoteApp false c confirmDup app).1.quotes = (addQuote c confirmDup app.quotes).1
      ∧ (addQuoteApp true c confirmDup app).2 = (addQuoteApp false c confirmDup app).2
      ∧ (addQuoteApp true c confirmDup app).1.durable = app.durable)
    ∧ ((importFromJsonFileApp true parsed confirmAppendDup app).1.quotes
          = (importFromJsonFile parsed confirmAppendDup app.quotes).1
      ∧ (importFromJsonFileApp false parsed confirmAppendDup app).1.quotes
          = (importFromJsonFile parsed confirmAppendDup app.quotes).1
      ∧ (importFromJsonFileApp true parsed confirmAppendDup app).2
          = (importFromJsonFileApp false parsed confirmAppendDup app).2
      ∧ (importFromJsonFileApp true parsed confirmAppendDup app).1.durable = app.durable)
    ∧ ((clearAllQuotesApp true confirmClear app).quotes
          = clearAllQuotes confirmClear app.quotes
      ∧ (clearAllQuotesApp false confirmClear app).quotes
          = clearAllQuotes confirmClear app.quotes
      ∧ (clearAllQuotesApp true confirmClear app).durable = app.durable) := by
  refine ⟨⟨?_, ?_, ?_, ?_⟩, ⟨?_, ?_, ?_, ?_⟩, ⟨?_, ?_, ?_⟩⟩
  all_goals
    first
    | (unfold addQuoteApp saveQuotes
       cases hr : (addQuote c confirmDup app.quotes).2 <;> simp [hr])
    | (unfold importFromJsonFileApp saveQuotes
       cases hr : (importFromJsonFile parsed confirmAppendDup app.quotes).2 <;> simp [hr])
    | (cases confirmClear <;>
        simp [clearAllQuotesApp, clearAllQuotes, saveQuotes])

theorem count_texts_filter_new (valid qs : List Quote) (t : String)
    (ht : (qs.map Quote.text).contains t = false) :
    List.count t
        ((valid.filter (fun q => !((qs.map Quote.text).contains q.text))).map Quote.text)
      = List.count t (valid.map Quote.text) := by
  induction valid with
  | nil => rfl
  | cons q v ih =>
    by_cases hq : ((qs.map Quote.text).contains q.text) = true
    · have hqt : t ≠ q.text := by
        rintro rfl
        rw [ht] at hq
        exact absurd hq (by simp)
      rw [List.filter_cons_of_neg
          (p := fun r : Quote => !((List.map Quote.text qs).contains r.text))
          (by
            show ¬(!((List.map Quote.text qs).contains q.text)) = true
            rw [hq]
            simp),
        List.map_cons, List.count_cons_of_ne hqt, ih]
    · have hq' : (!((qs.map Quote.text).contains q.text)) = true := by
        simp only [Bool.not_eq_true] at hq
        rw [hq]
        rfl
      rw [List.filter_cons_of_pos
          (p := fun r : Quote => !((List.map Quote.text qs).contains r.text)) hq',
        List.map_cons, List.map_cons, List.count_cons, List.count_cons, ih]

/-- C10: when at least one filtered item is new, the import appends
exactly the filtered items whose text is absent from the pre-import
collection — the duplicate filter is computed once against the prior
collection — and hence every text absent beforehand keeps its full
multiplicity from the filtered file, so items of the file sharing a text
are never deduplicated against each other. -/
theorem import_no_intra_file_dedup (items : List JVal) (conf : Bool) (qs : List Quote)
    (h : importToAdd items qs ≠ []) :
    (importFromJsonFile (some (.jarr items)) conf qs).1 = qs ++ importToAdd items qs
      ∧ ∀ t, (qs.map Quote.text).contains t = false →
        List.count t ((importFromJsonFile (some (.jarr items)) conf qs).1.map Quote.text)
          = List.count t ((computeValid items).map Quote.text) := by
  have h0 : ¬((computeValid items).length = 0) := by
    intro h0
    apply h
    unfold importToAdd
    rw [List.length_eq_zero.mp h0]
    rfl
  have h1 : ¬((importToAdd items qs).length = 0) := by
    simpa [List.length_eq_zero] using h
  have heq : (importFromJsonFile (some (.jarr items)) conf qs).1
      = qs ++ importToAdd items qs := by
    rw [importFromJsonFile_jarr, if_neg h0, if_neg h1]
  refine ⟨heq, ?_⟩
  intro t ht
  rw [heq, List.map_append, List.count_append]
  have hqs0 : List.count t (qs.map Quote.text) = 0 := by
    apply List.count_eq_zero.mpr
    intro hmem
    have hc : (List.map Quote.text qs).contains t = true := List.elem_iff.mpr hmem
    rw [ht] at hc
    exact absurd hc (by simp)
  rw [hqs0]
  unfold importToAdd
  rw [count_texts_filter_new (computeValid items) qs t ht]
  exact Nat.zero_add _

/-- Witness for C10: two items of the file share a fresh text and both
are appended. -/
theorem import_no_intra_file_dedup_witness :
    List.count "x"
        (((importFromJsonFile
            (some (.jarr [.jobj [("text", .jstr "x")], .jobj [("text", .jstr "x")]]))
            false []).1).map Quote.text)
      = 2 := by
  have h :=
    (import_no_intra_file_dedup [.jobj [("text", .jstr "x")], .jobj [("text", .jstr "x")]]
        false [] (by decide)).2 "x" (by decide)
  rw [h]
  decide

end QuoteGen
